import Mathlib

/-!
Verification of the Promise (PVSS) and VSS modules of this repository.

The group suite is external to the repository (`github.com/dedis/crypto/abstract`):
a cyclic group of prime order with generator `B`, scalar field `Z_q`, hashing and
signing primitives.  We embed the group in "discrete-log coordinates": a `Point`
is represented by its discrete logarithm in `ZMod q` (so the generator `B` is
`1`, `P.Mul(Q, s)` is `s * Q`, and `Point().Mul(nil, s)` is `s`).  Hashes,
stream-cipher based hash-to-scalar, Schnorr signatures and NIZK proofs are
consumed as black boxes in the source, so they appear here as function fields of
the suite structures.  Bytes are modelled as natural numbers below 256 in
`List ℕ`.
-/

/-- Size of a uint32 in bytes (`binary.Size(uint32(0))` in the source). -/
def uint32Size : ℕ := 4

/-- Little-endian uint32 encoding of a natural number, as in
`binary.LittleEndian.PutUint32`. -/
def u32le (m : ℕ) : List ℕ :=
  [m % 256, m / 256 % 256, m / 65536 % 256, m / 16777216 % 256]

/-- Little-endian uint32 decoding of the first four bytes of a buffer, as in
`binary.LittleEndian.Uint32`. -/
def u32de (l : List ℕ) : ℕ :=
  l.getD 0 0 + 256 * l.getD 1 0 + 65536 * l.getD 2 0 + 16777216 * l.getD 3 0

/-- Go's `uint32(i)` conversion of a (64-bit) `int`: two's-complement wraparound
modulo `2^32`. -/
def u32ofInt (i : ℤ) : ℕ := (i % 4294967296).toNat

/-- Decode `count` consecutive fixed-length (`len` bytes) items from the front of
a buffer with the item decoder `dec`.  This models the loops in the source that
call `UnmarshalBinary` on `buf[start:end]` slices of constant stride. -/
def decodeSeq {α : Type} (dec : List ℕ → Option α) (len : ℕ) :
    ℕ → List ℕ → Option (List α)
  | 0, _ => some []
  | count + 1, buf =>
    match dec (buf.take len) with
    | none => none
    | some x =>
      match decodeSeq dec len count (buf.drop len) with
      | none => none
      | some xs => some (x :: xs)

/-- Result of a Go function that either returns a value or panics.
`ConstructPromise` in the source returns only `*Promise` and signals invalid
parameters by panicking. -/
inductive GoResult (α : Type) where
  | panicked : String → GoResult α
  | ret : α → GoResult α
deriving DecidableEq

/-! ## The Promise module (`src/poly/promise/promise.go`) -/

/-- The two fixed domain-separated messages signed in the Promise module:
`sigMsg = "Promise Signature"` and `sigBlameMsg = "Promise Blame Signature"`.
Signatures are opaque byte strings checked by the external `anon.Verify`, so
only the identity of the message matters to the embedding. -/
inductive PMsg where
  | sigMsg : PMsg
  | sigBlameMsg : PMsg
deriving DecidableEq

/-- Errors surfaced by the Promise module (the source uses `errors.New` values;
we name each distinct error site). -/
inductive PErr where
  | invalidIndex : PErr
  | invalidTRN : PErr
  | badArrayLengths : PErr
  | wrongInsurerKey : PErr
  | nilSignature : PErr
  | badSignature : PErr
  | badProof : PErr
  | badShare : PErr
  | unjustifiedBlame : PErr
  | blamed : PErr
  | notEnoughSignatures : PErr
  | bufferTooSmall : PErr
  | decodeFailed : PErr
deriving DecidableEq

/-- The cryptographic suite consumed by the Promise module, in discrete-log
coordinates over `ZMod q`.  `sid` tags the identity of the suite (Go compares
suite interface values for identity).  `h2s` is the composite
`suite.Secret().Pick(suite.Cipher(point.MarshalBinary()))` used by
`diffieHellmanSecret`.  `sigVerify` is `anon.Verify` on a one-key set and
`nizkVerify` is `proof.HashVerify` of the predicate `Rep("D","x","P")` under
protocol name `"Promise Protocol"`. -/
structure PSuite (q : ℕ) where
  sid : ℕ
  pointLen : ℕ
  secretLen : ℕ
  h2s : ZMod q → ZMod q
  pointEnc : ZMod q → List ℕ
  pointDec : List ℕ → Option (ZMod q)
  secretEnc : ZMod q → List ℕ
  secretDec : List ℕ → Option (ZMod q)
  sigVerify : ZMod q → PMsg → List ℕ → Bool
  sigSign : ZMod q → PMsg → List ℕ
  nizkVerify : ZMod q → ZMod q → List ℕ → Bool

/-- `config.KeyPair`: a suite, a public point and a secret scalar.  In
discrete-log coordinates a well-formed pair has `pub = secret` (that is,
`Public = Secret · B`). -/
structure KeyPair (q : ℕ) where
  suiteId : ℕ
  pub : ZMod q
  secret : ZMod q
deriving DecidableEq

/-- The `Promise` struct.  `id` is the string form of the promised public key
(kept as bytes here); `t`, `r`, `n` are Go `int`s; `pubPoly` is the list of
commitment coefficients of the public polynomial in discrete-log coordinates
(`C_k = a_k · B`, hence `C_k = a_k` with `B = 1`). -/
structure Promise (q : ℕ) where
  id : List ℕ
  suiteId : ℕ
  t : ℤ
  r : ℤ
  n : ℤ
  pubKey : ZMod q
  pubPoly : List (ZMod q)
  insurers : List (ZMod q)
  secrets : List (ZMod q)
deriving DecidableEq

/-- Modelled from the spec: polynomial evaluation `Σ a_k x^k` (Horner) used by
the external `poly` package for both private evaluation and the public
commitment check. -/
def polyEvalAt {q : ℕ} (coeffs : List (ZMod q)) (x : ZMod q) : ZMod q :=
  coeffs.foldr (fun c acc => c + x * acc) 0

/-- Modelled from the spec: the external `poly` package derives the share of
index `i` by evaluating the private polynomial at `x = i + 1` (1-based
internally, so the constant term is never leaked by evaluation at zero). -/
def priShareAt {q : ℕ} (coeffs : List (ZMod q)) (i : ℕ) : ZMod q :=
  polyEvalAt coeffs ((i : ZMod q) + 1)

/-- Modelled from the spec: `poly.PriPoly.Pick(suite, t, secret, rand)` chooses
`a_0 = secret` and `a_1 .. a_{t-1}` from the random stream; the stream is made
explicit as the `rand` argument. -/
def priPolyPick {q : ℕ} (t : ℤ) (secret : ZMod q) (rand : List (ZMod q)) :
    List (ZMod q) :=
  secret :: rand.take (t - 1).toNat

/-- Modelled from the spec: `poly.PubPoly.Check(i, share)` accepts iff
`share · B = Σ C_k (i+1)^k`; in discrete-log coordinates, iff
`share = Σ C_k (i+1)^k`. -/
def pubPolyCheck {q : ℕ} (commits : List (ZMod q)) (i : ℤ) (share : ZMod q) :
    Bool :=
  share = polyEvalAt commits ((i : ZMod q) + 1)

/-- `Promise.ConstructPromise`.  The source assigns all fields, then panics when
`¬(t ≤ r ∧ r ≤ n)` or when the two key pairs use different suites; no error is
ever returned (the function's only return value is `*Promise`).  The private
polynomial is drawn from `random.Stream`, passed here explicitly as `rand`.
`secrets[i] = prishares.Share(i) + H2S(insurers[i] · longPair.Secret)`. -/
def constructPromise {q : ℕ} (s : PSuite q) (secretPair longPair : KeyPair q)
    (t r : ℤ) (insurers : List (ZMod q)) (rand : List (ZMod q)) :
    GoResult (Promise q) :=
  let n : ℤ := insurers.length
  if ¬(t ≤ r ∧ r ≤ n) then
    .panicked "Invalid t, r, and n. Expected t <= r <= n"
  else if longPair.suiteId ≠ secretPair.suiteId then
    .panicked "Two different suites used."
  else
    let coeffs := priPolyPick t secretPair.secret rand
    let secrets := (List.range n.toNat).map fun i =>
      let diffieBase := longPair.secret * insurers.getD i 0
      priShareAt coeffs i + s.h2s diffieBase
    .ret
      { id := s.pointEnc secretPair.pub
        suiteId := secretPair.suiteId
        t := t, r := r, n := n
        pubKey := longPair.pub
        pubPoly := coeffs
        insurers := insurers
        secrets := secrets }

/-- `Promise.verifyPromise`: the well-formedness check run after unmarshalling.
Fails when `t > n ∨ t > r ∨ r > n` or when the two arrays do not both have
length `n`. -/
def verifyPromiseE {q : ℕ} (p : Promise q) : Except PErr Unit :=
  if p.t > p.n ∨ p.t > p.r ∨ p.r > p.n then .error .invalidTRN
  else if p.insurers.length ≠ p.n.toNat ∨ p.secrets.length ≠ p.n.toNat then
    .error .badArrayLengths
  else .ok ()

/-- `Promise.VerifyShare`: range check, insurer identity check, then decrypt
`secrets[i] − H2S(pubKey · kp.Secret)` and run the public polynomial check. -/
def verifyShare {q : ℕ} (s : PSuite q) (p : Promise q) (i : ℤ)
    (kp : KeyPair q) : Except PErr Unit :=
  if i < 0 ∨ p.n ≤ i then .error .invalidIndex
  else if p.insurers.getD i.toNat 0 ≠ kp.pub then .error .wrongInsurerKey
  else
    let diffieBase := kp.secret * p.pubKey
    let share := p.secrets.getD i.toNat 0 - s.h2s diffieBase
    if ¬ pubPolyCheck p.pubPoly i share then .error .badShare
    else .ok ()

/-- `PromiseSignature`: a suite together with the opaque signature bytes; `none`
models a Go `nil` byte slice. -/
structure PromiseSig where
  suiteId : ℕ
  signature : Option (List ℕ)
deriving DecidableEq

/-- `Promise.verifySignature` (internal helper): range check, nil check, then
`anon.Verify` against the one-key set `{insurers[i]}`. -/
def verifySignature {q : ℕ} (s : PSuite q) (p : Promise q) (i : ℤ)
    (sig : PromiseSig) (msg : PMsg) : Except PErr Unit :=
  if i < 0 ∨ p.n ≤ i then .error .invalidIndex
  else
    match sig.signature with
    | none => .error .nilSignature
    | some bytes =>
      if s.sigVerify (p.insurers.getD i.toNat 0) msg bytes then .ok ()
      else .error .badSignature

/-- `Promise.VerifySignature`: the public wrapper fixing the message to
`sigMsg`. -/
def verifySignaturePub {q : ℕ} (s : PSuite q) (p : Promise q) (i : ℤ)
    (sig : PromiseSig) : Except PErr Unit :=
  verifySignature s p i sig .sigMsg

/-- `BlameProof`: the Diffie-Hellman point between accuser and promiser, the
NIZK bytes for it, and the accuser's signature over `sigBlameMsg`. -/
structure BlameProofM (q : ℕ) where
  suiteId : ℕ
  diffieKey : ZMod q
  diffieKeyProof : List ℕ
  signature : PromiseSig
deriving DecidableEq

/-- `Promise.VerifyBlame`: range check, blame-author signature check over
`sigBlameMsg`, NIZK check of `diffieKey = x · pubKey`, then re-derive the share
from `bp.diffieKey`; blame is justified (returns ok) iff the share fails the
public polynomial check. -/
def verifyBlame {q : ℕ} (s : PSuite q) (p : Promise q) (i : ℤ)
    (bp : BlameProofM q) : Except PErr Unit :=
  if i < 0 ∨ p.n ≤ i then .error .invalidIndex
  else
    match verifySignature s p i bp.signature .sigBlameMsg with
    | .error e => .error e
    | .ok _ =>
      if ¬ s.nizkVerify bp.diffieKey p.pubKey bp.diffieKeyProof then
        .error .badProof
      else
        let diffieSecret := s.h2s bp.diffieKey
        let share := p.secrets.getD i.toNat 0 - diffieSecret
        if pubPolyCheck p.pubPoly i share then .error .unjustifiedBlame
        else .ok ()

/-- `Promise.RevealShare`: NO bounds check is performed; `secrets[i]` is read
directly, so an index outside the array panics in Go (modelled by
`GoResult.panicked`; Go's negative-index and past-the-end accesses both
panic). -/
def revealShare {q : ℕ} (s : PSuite q) (p : Promise q) (i : ℤ)
    (kp : KeyPair q) : GoResult (ZMod q) :=
  match (if 0 ≤ i then p.secrets.get? i.toNat else none) with
  | none => .panicked "runtime error: index out of range"
  | some sec =>
    let diffieBase := kp.secret * p.pubKey
    let diffieSecret := s.h2s diffieBase
    .ret (sec - diffieSecret)

/-- `Promise.VerifyRevealedShare`: range check plus the public polynomial
check. -/
def verifyRevealedShare {q : ℕ} (p : Promise q) (i : ℤ) (share : ZMod q) :
    Except PErr Unit :=
  if i < 0 ∨ p.n ≤ i then .error .invalidIndex
  else if ¬ pubPolyCheck p.pubPoly i share then .error .badShare
  else .ok ()

/-- `PromiseState`: the promise plus per-insurer optional signatures and blame
proofs (both arrays of length `n`, entries `nil` until added). -/
structure PromiseState (q : ℕ) where
  promise : Promise q
  signatures : List (Option PromiseSig)
  blames : List (Option (BlameProofM q))

/-- Go's `err == nil` test on an error value. -/
def isOkE (e : Except PErr Unit) : Bool :=
  match e with
  | .ok _ => true
  | .error _ => false

/-- Whether slot `i` holds a signature accepted by `VerifySignature`
(the `ps.signatures[i] != nil && VerifySignature(i, ...) == nil` test of
`PromiseCertified`). -/
def sigValidAt {q : ℕ} (s : PSuite q) (ps : PromiseState q) (i : ℕ) : Bool :=
  match ps.signatures.getD i none with
  | none => false
  | some sg => isOkE (verifySignaturePub s ps.promise (i : ℤ) sg)

/-- Whether slot `i` holds a blame proof accepted by `VerifyBlame`. -/
def blameValidAt {q : ℕ} (s : PSuite q) (ps : PromiseState q) (i : ℕ) : Bool :=
  match ps.blames.getD i none with
  | none => false
  | some bp => isOkE (verifyBlame s ps.promise (i : ℤ) bp)

/-- The index loop of `PromiseState.PromiseCertified`: counts valid signatures,
returns the blame error as soon as a valid blame proof is seen, and finally
fails when fewer than `r` valid signatures were counted. -/
def certLoop {q : ℕ} (s : PSuite q) (ps : PromiseState q) :
    List ℕ → ℕ → Except PErr Unit
  | [], validSigs =>
    if (validSigs : ℤ) < ps.promise.r then .error .notEnoughSignatures
    else .ok ()
  | i :: rest, validSigs =>
    let validSigs := if sigValidAt s ps i then validSigs + 1 else validSigs
    if blameValidAt s ps i then .error .blamed
    else certLoop s ps rest validSigs

/-- `PromiseState.PromiseCertified`: first `verifyPromise`, then the loop over
`0 ≤ i < n`. -/
def promiseCertified {q : ℕ} (s : PSuite q) (ps : PromiseState q) :
    Except PErr Unit :=
  match verifyPromiseE ps.promise with
  | .error e => .error e
  | .ok _ => certLoop s ps (List.range ps.promise.n.toNat) 0

/-- The number of indices below `n` holding a valid signature. -/
def validSigCount {q : ℕ} (s : PSuite q) (ps : PromiseState q) : ℕ :=
  ((List.range ps.promise.n.toNat).filter (sigValidAt s ps)).length

/-! ## Promise-module wire codecs.

Go's `MarshalBinary` allocates a buffer of `MarshalSize()` bytes and `copy`s
each encoded field at its computed offset; when every point encoding has length
`suite.PointLen()` and every scalar encoding has length `suite.SecretLen()`
(the suite contract), this is exactly the concatenation of the segments. -/

/-- `Promise.MarshalBinary`:
`||n||t||r||pubKey||pubPoly||==insurers==||==secrets==||` with `n`, `t`, `r` as
little-endian `uint32(int)`. -/
def promiseMarshal {q : ℕ} (s : PSuite q) (p : Promise q) : List ℕ :=
  u32le (u32ofInt p.n) ++ u32le (u32ofInt p.t) ++ u32le (u32ofInt p.r) ++
    s.pointEnc p.pubKey ++
    (p.pubPoly.map s.pointEnc).flatten ++
    (p.insurers.map s.pointEnc).flatten ++
    (p.secrets.map s.secretEnc).flatten

/-- `Promise.UnmarshalBinary` on a promise initialized by `UnmarshalInit(suite)`:
reads `n`, `t`, `r`, the public key, `t` commitment points, `n` insurer points
and `n` secret scalars at their fixed offsets, then runs `verifyPromise`.
The `id` field is not on the wire and stays at its zero value. -/
def promiseUnmarshal {q : ℕ} (s : PSuite q) (buf : List ℕ) :
    Except PErr (Promise q) :=
  let n := u32de buf
  let t := u32de (buf.drop uint32Size)
  let r := u32de (buf.drop (2 * uint32Size))
  match s.pointDec ((buf.drop (3 * uint32Size)).take s.pointLen) with
  | none => .error .decodeFailed
  | some pubKey =>
    let polyLen := t * s.pointLen
    match decodeSeq s.pointDec s.pointLen t
        ((buf.drop (3 * uint32Size + s.pointLen)).take polyLen) with
    | none => .error .decodeFailed
    | some pubPoly =>
      let insPos := 3 * uint32Size + s.pointLen + polyLen
      match decodeSeq s.pointDec s.pointLen n
          ((buf.drop insPos).take (n * s.pointLen)) with
      | none => .error .decodeFailed
      | some insurers =>
        let secPos := insPos + n * s.pointLen
        match decodeSeq s.secretDec s.secretLen n
            ((buf.drop secPos).take (n * s.secretLen)) with
        | none => .error .decodeFailed
        | some secrets =>
          let p : Promise q :=
            { id := []
              suiteId := s.sid
              t := (t : ℤ), r := (r : ℤ), n := (n : ℤ)
              pubKey := pubKey
              pubPoly := pubPoly
              insurers := insurers
              secrets := secrets }
          match verifyPromiseE p with
          | .error e => .error e
          | .ok _ => .ok p

/-- `Promise.Equal`: compares `n`, the suite, the two arrays element-wise below
`n`, then `t`, `r`, the public key and the public polynomial (`id` is not
compared). -/
def promiseEqual {q : ℕ} (p p2 : Promise q) : Bool :=
  p.n == p2.n && p.suiteId == p2.suiteId &&
    (List.range p.n.toNat).all (fun i =>
      p.secrets.getD i 0 == p2.secrets.getD i 0 &&
      p.insurers.getD i 0 == p2.insurers.getD i 0) &&
    p.t == p2.t && p.r == p2.r && p.pubKey == p2.pubKey &&
    p.pubPoly == p2.pubPoly

/-- `PromiseSignature.MarshalSize`: `uint32Size + len(signature)` (`nil`
counts as length zero). -/
def psigMarshalSize (sig : PromiseSig) : ℕ :=
  uint32Size + (sig.signature.getD []).length

/-- `PromiseSignature.MarshalBinary`: `||sigLen||signature||`. -/
def psigMarshal (sig : PromiseSig) : List ℕ :=
  u32le (sig.signature.getD []).length ++ sig.signature.getD []

/-- `PromiseSignature.UnmarshalBinary` on a value initialized with
`UnmarshalInit(suite)`: two explicit buffer-length checks, then the signature
bytes are sliced out (always a non-nil slice). -/
def psigUnmarshal (suiteId : ℕ) (buf : List ℕ) : Except PErr PromiseSig :=
  if buf.length < uint32Size then .error .bufferTooSmall
  else
    let sigLen := u32de buf
    if buf.length < uint32Size + sigLen then .error .bufferTooSmall
    else .ok { suiteId := suiteId, signature := some ((buf.drop uint32Size).take sigLen) }

/-- `PromiseSignature.Equal`: same suite and `reflect.DeepEqual` of the structs
(suite identity plus byte-wise equality of the signatures, with `nil` distinct
from any non-nil slice). -/
def psigEqual (a b : PromiseSig) : Bool :=
  a.suiteId == b.suiteId && a.signature == b.signature

/-- `BlameProof.MarshalBinary`:
`||proofLen||sigMarshalLen||diffieKey||proof||marshalled signature||`. -/
def bpMarshal {q : ℕ} (s : PSuite q) (bp : BlameProofM q) : List ℕ :=
  u32le bp.diffieKeyProof.length ++ u32le (psigMarshalSize bp.signature) ++
    s.pointEnc bp.diffieKey ++ bp.diffieKeyProof ++ psigMarshal bp.signature

/-- `BlameProof.UnmarshalBinary` on a value initialized with
`UnmarshalInit(suite)`: length check for the header and point, decode the
point, length check for the payload, slice the proof, then unmarshal the inner
signature (itself initialized with the same suite). -/
def bpUnmarshal {q : ℕ} (s : PSuite q) (buf : List ℕ) :
    Except PErr (BlameProofM q) :=
  if buf.length < 2 * uint32Size + s.pointLen then .error .bufferTooSmall
  else
    let proofLen := u32de buf
    let sigLen := u32de (buf.drop uint32Size)
    match s.pointDec ((buf.drop (2 * uint32Size)).take s.pointLen) with
    | none => .error .decodeFailed
    | some dk =>
      if buf.length < 2 * uint32Size + s.pointLen + proofLen + sigLen then
        .error .bufferTooSmall
      else
        let prf := (buf.drop (2 * uint32Size + s.pointLen)).take proofLen
        match psigUnmarshal s.sid
            ((buf.drop (2 * uint32Size + s.pointLen + proofLen)).take sigLen) with
        | .error e => .error e
        | .ok sg =>
          .ok { suiteId := s.sid, diffieKey := dk, diffieKeyProof := prf,
                signature := sg }

/-- `BlameProof.Equal`: same suite, equal Diffie-Hellman point,
`reflect.DeepEqual` of the proof bytes and `Equal` of the signatures. -/
def bpEqual {q : ℕ} (a b : BlameProofM q) : Bool :=
  a.suiteId == b.suiteId && a.diffieKey == b.diffieKey &&
    a.diffieKeyProof == b.diffieKeyProof && psigEqual a.signature b.signature

/-- Whether `decode(encode(p))` succeeds and yields a `Promise.Equal` value. -/
def promiseRoundtrips {q : ℕ} (s : PSuite q) (p : Promise q) : Bool :=
  match promiseUnmarshal s (promiseMarshal s p) with
  | .ok p2 => promiseEqual p2 p
  | .error _ => false

/-- Whether `decode(encode(sig))` succeeds and yields an `Equal`
PromiseSignature. -/
def psigRoundtrips (sig : PromiseSig) : Bool :=
  match psigUnmarshal sig.suiteId (psigMarshal sig) with
  | .ok s2 => psigEqual s2 sig
  | .error _ => false

/-- Whether `decode(encode(bp))` succeeds and yields an `Equal` BlameProof. -/
def bpRoundtrips {q : ℕ} (s : PSuite q) (bp : BlameProofM q) : Bool :=
  match bpUnmarshal s (bpMarshal s bp) with
  | .ok b2 => bpEqual b2 bp
  | .error _ => false

/-! ## The VSS module (`src/share/vss/vss.go`)

Same discrete-log embedding of the group.  `share.PriShare` has a Go `int`
index and a scalar value.  `H` is the secondary base derived by hashing the
verifier keys and picking a point from a cipher seeded with the digest. -/

/-- Response status byte: `StatusComplaint = 0`, `StatusApproval = 1`, and the
unexported `statusJustified = 2` set when a complaint has been justified. -/
inductive VStatus where
  | complaint : VStatus
  | approval : VStatus
  | justified : VStatus
deriving DecidableEq

/-- The status byte written by `msgResponse`. -/
def VStatus.toByte : VStatus → ℕ
  | .complaint => 0
  | .approval => 1
  | .justified => 2

/-- Errors of the VSS module, one constructor per `errors.New` site. -/
inductive VErr where
  | wrongIndexFromDeal : VErr
  | dealAlreadyProcessed : VErr
  | invalidT : VErr
  | sessionMismatchDeal : VErr
  | badSchnorrSignature : VErr
  | shareIndexMismatch : VErr
  | indexOutOfBoundsDeal : VErr
  | commitMismatch : VErr
  | sessionMismatchResponse : VErr
  | indexOutOfBoundsResponse : VErr
  | indexOutOfBoundsJustification : VErr
  | noComplaintForJustification : VErr
  | justificationForApproval : VErr
  | indexOutOfBoundsComplaint : VErr
  | duplicateResponse : VErr
deriving DecidableEq

/-- The abstract suite consumed by the VSS module.  `hash` is `suite.Hash()`
applied to a written byte stream; `pickPoint` is
`suite.Point().Pick(nil, suite.Cipher(digest))` used by `deriveH`;
`schnorrSign`/`schnorrVerify` are `sign.Schnorr`/`sign.VerifySchnorr`. -/
structure VSuite (q : ℕ) where
  pointEnc : ZMod q → List ℕ
  scalarEnc : ZMod q → List ℕ
  hash : List ℕ → List ℕ
  pickPoint : List ℕ → ZMod q
  schnorrSign : ZMod q → List ℕ → List ℕ
  schnorrVerify : ZMod q → List ℕ → List ℕ → Bool

/-- `share.PriShare`: an index (Go `int`) and a scalar value. -/
structure PriShareM (q : ℕ) where
  i : ℤ
  v : ZMod q
deriving DecidableEq

/-- The `Deal` message. `T` is a `uint32`. -/
structure VDeal (q : ℕ) where
  sessionID : List ℕ
  secShare : PriShareM q
  rndShare : PriShareM q
  t : ℕ
  commitments : List (ZMod q)
  signature : List ℕ
deriving DecidableEq

/-- The `Response` message.  `index` is a `uint32`. -/
structure VResponse where
  sessionID : List ℕ
  index : ℕ
  status : VStatus
  signature : List ℕ
deriving DecidableEq

/-- The `Justification` message. -/
structure VJust (q : ℕ) where
  sessionID : List ℕ
  index : ℕ
  deal : VDeal q
  signature : List ℕ
deriving DecidableEq

/-- `validT(t, verifiers)`: `t >= 2 && t <= len(verifiers) && int(uint32(t)) == t`. -/
def validT {q : ℕ} (t : ℤ) (verifiers : List (ZMod q)) : Bool :=
  2 ≤ t && t ≤ (verifiers.length : ℤ) && (u32ofInt t : ℤ) == t

/-- `deriveH`: hash the concatenated verifier-key encodings and pick a point
from a cipher seeded with the digest. -/
def deriveH {q : ℕ} (s : VSuite q) (verifiers : List (ZMod q)) : ZMod q :=
  s.pickPoint (s.hash (verifiers.map s.pointEnc).flatten)

/-- `sessionID(suite, dealer, verifiers, commitments, t)`: hash of the dealer
key, the verifier keys, the commitments and `uint32(t)` little-endian. -/
def sessionIDv {q : ℕ} (s : VSuite q) (dealer : ZMod q)
    (verifiers commitments : List (ZMod q)) (t : ℤ) : List ℕ :=
  s.hash (s.pointEnc dealer ++ (verifiers.map s.pointEnc).flatten ++
    (commitments.map s.pointEnc).flatten ++ u32le (u32ofInt t))

/-- ASCII bytes of a literal string tag. -/
def strBytes (str : String) : List ℕ :=
  str.data.map Char.toNat

/-- `msgDeal`: `"deal"` plus the session id plus the two shares.  The source
passes the plain-`int` share indices to `binary.Write`, which rejects the
unsized type `int` with an error (silently ignored) and writes nothing, so only
the share values actually follow the session id. -/
def msgDeal {q : ℕ} (s : VSuite q) (d : VDeal q) : List ℕ :=
  strBytes "deal" ++ d.sessionID ++ s.scalarEnc d.secShare.v ++
    s.scalarEnc d.rndShare.v

/-- `msgResponse`: `"response" ‖ sessionID ‖ uint32 index ‖ status byte`. -/
def msgResponse (r : VResponse) : List ℕ :=
  strBytes "response" ++ r.sessionID ++ u32le r.index ++ [r.status.toByte]

/-- `msgJustification`: `"justification" ‖ sessionID ‖ uint32 index ‖ msgDeal`. -/
def msgJustification {q : ℕ} (s : VSuite q) (j : VJust q) : List ℕ :=
  strBytes "justification" ++ j.sessionID ++ u32le j.index ++ msgDeal s j.deal

/-- The `aggregator`: bound dealer and verifier keys, commitments, accepted
responses (a map keyed by verifier index, kept here as an association list with
unique keys), session id, the bound deal, `t`, and the sticky `badDealer`
flag. -/
structure Agg (q : ℕ) where
  dealer : ZMod q
  verifiers : List (ZMod q)
  commits : List (ZMod q)
  responses : List (ℕ × VResponse)
  sid : List ℕ
  deal : Option (VDeal q)
  t : ℤ
  badDealer : Bool
deriving DecidableEq

/-- `newAggregator`. -/
def newAggregator {q : ℕ} (dealer : ZMod q) (verifiers commitments : List (ZMod q))
    (t : ℤ) (sid : List ℕ) : Agg q :=
  { dealer := dealer, verifiers := verifiers, commits := commitments,
    responses := [], sid := sid, deal := none, t := t, badDealer := false }

/-- `findPub(verifiers, idx)`: `verifiers[idx]` when `int(idx) < len(verifiers)`
(`idx` is a `uint32`, so never negative). -/
def findPub {q : ℕ} (verifiers : List (ZMod q)) (idx : ℕ) : Option (ZMod q) :=
  if idx ≥ verifiers.length then none else some (verifiers.getD idx 0)

/-- The first-call binding of `VerifyDeal`: when no deal is bound yet, bind
`(commits, sid, deal)` from the incoming deal. -/
def bindDeal {q : ℕ} (a : Agg q) (d : VDeal q) : Agg q :=
  if a.deal.isNone then
    { a with commits := d.commitments, sid := d.sessionID, deal := some d }
  else a

/-- `aggregator.VerifyDeal(d, inclusion)`.  The first call binds
`(commits, sid, deal)` before any validation, so the session-id comparison is
vacuous for the very first deal.  Returns the error (if any) together with the
post state, since the binding persists even when validation then fails. -/
def verifyDeal {q : ℕ} (s : VSuite q) (a : Agg q) (d : VDeal q)
    (inclusion : Bool) : Option VErr × Agg q :=
  if a.deal.isSome ∧ inclusion then (some .dealAlreadyProcessed, a)
  else
    let a := bindDeal a d
    if ¬ validT (d.t : ℤ) a.verifiers then (some .invalidT, a)
    else if a.sid ≠ d.sessionID then (some .sessionMismatchDeal, a)
    else if ¬ s.schnorrVerify a.dealer (msgDeal s d) d.signature then
      (some .badSchnorrSignature, a)
    else if d.secShare.i ≠ d.rndShare.i then (some .shareIndexMismatch, a)
    else if d.secShare.i < 0 ∨ (a.verifiers.length : ℤ) ≤ d.secShare.i then
      (some .indexOutOfBoundsDeal, a)
    else
      let fig := d.secShare.v
      let hpt := deriveH s a.verifiers
      let gih := d.rndShare.v * hpt
      let ci := fig + gih
      let pubShare := polyEvalAt d.commitments ((d.secShare.i : ZMod q) + 1)
      if ci ≠ pubShare then (some .commitMismatch, a) else (none, a)

/-- `aggregator.addResponse`: index bound check, duplicate check, then insert. -/
def addResponse {q : ℕ} (a : Agg q) (r : VResponse) : Option VErr × Agg q :=
  if (findPub a.verifiers r.index).isNone then (some .indexOutOfBoundsComplaint, a)
  else if (a.responses.lookup r.index).isSome then (some .duplicateResponse, a)
  else (none, { a with responses := a.responses ++ [(r.index, r)] })

/-- `aggregator.verifyResponse`: session check, index check, Schnorr signature
check, then `addResponse`. -/
def verifyResponse {q : ℕ} (s : VSuite q) (a : Agg q) (r : VResponse) :
    Option VErr × Agg q :=
  if r.sessionID ≠ a.sid then (some .sessionMismatchResponse, a)
  else
    match findPub a.verifiers r.index with
    | none => (some .indexOutOfBoundsResponse, a)
    | some pub =>
      if ¬ s.schnorrVerify pub (msgResponse r) r.signature then
        (some .badSchnorrSignature, a)
      else addResponse a r

/-- Update the status of the stored response at `idx` (the source mutates the
mapped `*Response` in place). -/
def setStatusAt (idx : ℕ) (st : VStatus)
    (rs : List (ℕ × VResponse)) : List (ℕ × VResponse) :=
  rs.map fun p => if p.1 = idx then (p.1, { p.2 with status := st }) else p

/-- `aggregator.verifyJustification`: index check, a complaint must be stored
for the index, then re-run `VerifyDeal` without inclusion; on failure set the
sticky `badDealer` flag, on success mark the response justified. -/
def verifyJustification {q : ℕ} (s : VSuite q) (a : Agg q) (j : VJust q) :
    Option VErr × Agg q :=
  if (findPub a.verifiers j.index).isNone then
    (some .indexOutOfBoundsJustification, a)
  else
    match a.responses.lookup j.index with
    | none => (some .noComplaintForJustification, a)
    | some r =>
      if r.status ≠ .complaint then (some .justificationForApproval, a)
      else
        match verifyDeal s a j.deal false with
        | (some e, a2) => (some e, { a2 with badDealer := true })
        | (none, a2) =>
          (none, { a2 with responses := setStatusAt j.index .justified a2.responses })

/-- Number of stored responses with status `Approval`
(the loop in `EnoughApprovals`). -/
def approvalsOf {q : ℕ} (a : Agg q) : ℕ :=
  (a.responses.filter fun p => p.2.status == .approval).length

/-- Number of stored responses with status `Complaint`
(the loop in `DealCertified`). -/
def complaintsOf {q : ℕ} (a : Agg q) : ℕ :=
  (a.responses.filter fun p => p.2.status == .complaint).length

/-- `aggregator.EnoughApprovals`: at least `t` approvals. -/
def enoughApprovals {q : ℕ} (a : Agg q) : Bool :=
  (approvalsOf a : ℤ) ≥ a.t

/-- `aggregator.DealCertified`:
`EnoughApprovals() && !(complaints >= t || badDealer)`. -/
def dealCertified {q : ℕ} (a : Agg q) : Bool :=
  enoughApprovals a && !(((complaintsOf a : ℤ) ≥ a.t : Bool) || a.badDealer)

/-- The `Verifier` state: long-term keys, dealer key, own index in the verifier
list, and the aggregator (absent until the first deal arrives). -/
structure VerifierM (q : ℕ) where
  longterm : ZMod q
  pub : ZMod q
  dealer : ZMod q
  index : ℤ
  verifiers : List (ZMod q)
  agg : Option (Agg q)
deriving DecidableEq

/-- `Verifier.ProcessDeal`.  Checks the share index against the verifier's own
index, recomputes the session id (which is used only as the session id of the
emitted Response), creates the aggregator on first call binding `d.SessionID`,
runs `VerifyDeal` (an approval on success, a complaint on failure —
`DealAlreadyProcessed` is returned as an error), signs the response and stores
it. -/
def processDeal {q : ℕ} (s : VSuite q) (v : VerifierM q) (d : VDeal q) :
    Except VErr VResponse × VerifierM q :=
  if d.secShare.i ≠ v.index then (.error .wrongIndexFromDeal, v)
  else
    let t : ℤ := (d.t : ℤ)
    let sid := sessionIDv s v.dealer v.verifiers d.commitments t
    let a0 := v.agg.getD (newAggregator v.dealer v.verifiers d.commitments t d.sessionID)
    let r0 : VResponse :=
      { sessionID := sid, index := u32ofInt v.index, status := .approval,
        signature := [] }
    let ea := verifyDeal s a0 d true
    let r1 := if (ea.1).isSome then { r0 with status := .complaint } else r0
    if ea.1 = some .dealAlreadyProcessed then
      (.error .dealAlreadyProcessed, { v with agg := some ea.2 })
    else
      let r2 := { r1 with signature := s.schnorrSign v.longterm (msgResponse r1) }
      match addResponse ea.2 r2 with
      | (some e, a2) => (.error e, { v with agg := some a2 })
      | (none, a2) => (.ok r2, { v with agg := some a2 })

/-! ## Decidability of `Except` equality, and concrete instances used to
evaluate the model on explicit inputs. -/

deriving instance DecidableEq for Except

/-- A concrete instance of the Promise suite over the 5-element group, with
degenerate (but contract-satisfying) black-box primitives, used to evaluate the
model on explicit inputs. -/
def toyPS : PSuite 5 :=
  { sid := 7
    pointLen := 1
    secretLen := 1
    h2s := fun x => x + 2
    pointEnc := fun x => [x.val]
    pointDec := fun l => some ((l.headD 0 : ℕ) : ZMod 5)
    secretEnc := fun x => [x.val]
    secretDec := fun l => some ((l.headD 0 : ℕ) : ZMod 5)
    sigVerify := fun _ _ _ => true
    sigSign := fun _ _ => [1]
    nizkVerify := fun _ _ _ => true }

/-- A concrete instance of the VSS suite over the 5-element group. -/
def toyVS : VSuite 5 :=
  { pointEnc := fun x => [x.val]
    scalarEnc := fun x => [x.val]
    hash := fun _ => [0]
    pickPoint := fun _ => 0
    schnorrSign := fun _ _ => [9]
    schnorrVerify := fun _ _ _ => true }

/-- Key pair of the promised (short-term) secret used in concrete runs. -/
def kpSecret6 : KeyPair 5 := ⟨7, 3, 3⟩

/-- Long-term key pair of the promiser used in concrete runs. -/
def kpLong6 : KeyPair 5 := ⟨7, 4, 4⟩

/-- Long-term key pair of the single insurer used in concrete runs. -/
def kpInsurer6 : KeyPair 5 := ⟨7, 2, 2⟩

/-- The Promise produced by `ConstructPromise` on the concrete honest run
`constructPromise toyPS kpSecret6 kpLong6 1 1 [kpInsurer6.pub] []`. -/
def promC6 : Promise 5 :=
  { id := [3], suiteId := 7, t := 1, r := 1, n := 1, pubKey := 4,
    pubPoly := [3], insurers := [2], secrets := [3] }

/-- A PromiseState over `promC6` holding one valid signature and no blames. -/
def psC2 : PromiseState 5 :=
  { promise := promC6
    signatures := [some ⟨7, some [1]⟩]
    blames := [none] }

/-- A concrete blame proof against slot 0 of `promC6` whose re-derived share
fails the polynomial check (so the blame is justified). -/
def bpC8 : BlameProofM 5 :=
  { suiteId := 7, diffieKey := 1, diffieKeyProof := [], signature := ⟨7, some [1]⟩ }

/-- A wire buffer encoding a Promise with `n = t = r = 0`:
`||0||0||0||pubKey||` with empty polynomial and arrays. -/
def bufC4 : List ℕ := u32le 0 ++ u32le 0 ++ u32le 0 ++ [3]

/-- The Promise that `UnmarshalBinary` accepts from `bufC4`; note `t = 0`. -/
def promC4 : Promise 5 :=
  { id := [], suiteId := 7, t := 0, r := 0, n := 0, pubKey := 3,
    pubPoly := [], insurers := [], secrets := [] }

/-- A fresh aggregator (no deal bound yet) for one verifier, `t = 2`. -/
def aggC7 : Agg 5 := newAggregator 1 [2] [] 2 [0]

/-- A deal with an invalid threshold (`T = 0`), rejected by `validT`. -/
def dealC7 : VDeal 5 :=
  { sessionID := [0], secShare := ⟨0, 1⟩, rndShare := ⟨0, 1⟩, t := 0,
    commitments := [], signature := [] }

/-- A fresh verifier (no deal processed yet) at index 0 of a one-element
verifier list. -/
def verC1 : VerifierM 5 :=
  { longterm := 2, pub := 2, dealer := 1, index := 0, verifiers := [2],
    agg := none }

/-- A first deal for `verC1` whose `SessionID` differs from the session id the
verifier recomputes (`toyVS.hash` always returns `[0]`, the deal carries `[1]`). -/
def dealC1 : VDeal 5 :=
  { sessionID := [1], secShare := ⟨0, 1⟩, rndShare := ⟨0, 1⟩, t := 2,
    commitments := [], signature := [] }

/-- A PromiseSignature with a non-nil two-byte signature. -/
def sigC9 : PromiseSig := ⟨7, some [1, 2]⟩

/-- A BlameProof with a one-byte NIZK and a non-nil one-byte signature. -/
def bpC9 : BlameProofM 5 := ⟨7, 2, [4], ⟨7, some [1]⟩⟩

/-- An aggregator holding one approval response, used for concrete certification
checks. -/
def aggC3 : Agg 5 :=
  { dealer := 1, verifiers := [2], commits := [], sid := [0], deal := none,
    t := 1, badDealer := false,
    responses := [(0, ⟨[0], 0, .approval, [9]⟩)] }

/-! ## Helper lemmas -/

theorem u32de_u32le (m : ℕ) (rest : List ℕ) (h : m < 4294967296) :
    u32de (u32le m ++ rest) = m := by
  simp [u32le, u32de]
  omega

theorem u32le_length (m : ℕ) : (u32le m).length = 4 := by
  simp [u32le]

theorem drop4_u32le (m : ℕ) (rest : List ℕ) :
    (u32le m ++ rest).drop 4 = rest :=
  List.drop_left' (u32le_length m)

theorem u32ofInt_of_lt (i : ℤ) (h0 : 0 ≤ i) (h1 : i < 4294967296) :
    u32ofInt i = i.toNat := by
  unfold u32ofInt
  rw [Int.emod_eq_of_lt h0 h1]

theorem flatten_enc_length {α : Type} (enc : α → List ℕ) (len : ℕ)
    (h : ∀ x, (enc x).length = len) :
    ∀ l : List α, (l.map enc).flatten.length = l.length * len
  | [] => by simp
  | x :: xs => by
    simp [flatten_enc_length enc len h xs, h x]
    ring

theorem decodeSeq_flatten {α : Type} (dec : List ℕ → Option α)
    (enc : α → List ℕ) (len : ℕ)
    (hlen : ∀ x, (enc x).length = len) (hdec : ∀ x, dec (enc x) = some x) :
    ∀ (l : List α) (rest : List ℕ),
      decodeSeq dec len l.length ((l.map enc).flatten ++ rest) = some l
  | [], _ => by simp [decodeSeq]
  | x :: xs, rest => by
    have h1 : ((x :: xs).map enc).flatten ++ rest =
        enc x ++ ((xs.map enc).flatten ++ rest) := by simp
    have h2 : (x :: xs).length = xs.length + 1 := rfl
    rw [h1, h2]
    simp only [decodeSeq, List.take_left' (hlen x), List.drop_left' (hlen x),
      hdec x, decodeSeq_flatten dec enc len hlen hdec xs rest]

theorem get?_some_getD {α : Type} (l : List α) (n : ℕ) (d : α)
    (h : n < l.length) : l.get? n = some (l.getD n d) := by
  rw [List.getD_eq_getElem?_getD, List.get?_eq_getElem?,
    List.getElem?_eq_getElem h]
  rfl

/-- The claim C3 is about: `DealCertified()` iff at least `t` approvals, no bad
dealer, and strictly fewer than `t` complaints; justified complaints count as
neither.  First conjunct: the exact certification condition.  Second conjunct:
a response with status `statusJustified` changes neither count. -/
theorem claim_C3 {q : ℕ} (a : Agg q) :
    (dealCertified a = true ↔
      (a.t ≤ (approvalsOf a : ℤ) ∧ a.badDealer = false ∧
        (complaintsOf a : ℤ) < a.t)) ∧
    (∀ (idx : ℕ) (r : VResponse), r.status = VStatus.justified →
      approvalsOf { a with responses := a.responses ++ [(idx, r)] } =
        approvalsOf a ∧
      complaintsOf { a with responses := a.responses ++ [(idx, r)] } =
        complaintsOf a) := by
  constructor
  · simp only [dealCertified, enoughApprovals, Bool.and_eq_true,
      decide_eq_true_eq, Bool.not_eq_true', Bool.or_eq_false_iff,
      decide_eq_false_iff_not, ge_iff_le]
    constructor
    · rintro ⟨h1, h2, h3⟩
      exact ⟨h1, h3, by omega⟩
    · rintro ⟨h1, h2, h3⟩
      exact ⟨h1, by omega, h2⟩
  · intro idx r h
    constructor
    · simp [approvalsOf, List.filter_append, h]
    · simp [complaintsOf, List.filter_append, h]

/-- Witness for C3: applying the justified-neutrality conjunct at a concrete
aggregator and a concrete justified response. -/
theorem claim_C3_witness :
    approvalsOf { aggC3 with
        responses := aggC3.responses ++ [(1, ⟨[0], 1, .justified, []⟩)] } =
      approvalsOf aggC3 ∧
    complaintsOf { aggC3 with
        responses := aggC3.responses ++ [(1, ⟨[0], 1, .justified, []⟩)] } =
      complaintsOf aggC3 :=
  (claim_C3 aggC3).2 1 ⟨[0], 1, .justified, []⟩ rfl

/-- The claim C5 is about, amended: on invalid parameters
(`¬(t ≤ r ≤ len(insurers))`), `ConstructPromise` fails by panicking with the
message `Invalid t, r, and n. Expected t <= r <= n` — its signature has no
error return — and yields no Promise value. -/
theorem claim_C5 {q : ℕ} (s : PSuite q) (secretPair longPair : KeyPair q)
    (t r : ℤ) (insurers rand : List (ZMod q))
    (h : ¬(t ≤ r ∧ r ≤ (insurers.length : ℤ))) :
    constructPromise s secretPair longPair t r insurers rand =
      .panicked "Invalid t, r, and n. Expected t <= r <= n" := by
  simp [constructPromise, h]

/-- Counterexample for C5 as stated: with `t = 2, r = 1, n = 5` the source does
NOT return an *InvalidParameters* error (its only return value is `*Promise`);
it panics.  The outcome is `GoResult.panicked`, not a returned error value. -/
theorem claim_C5_counterexample :
    constructPromise toyPS kpSecret6 kpLong6 2 1 [2, 2, 2, 2, 2] [] =
      .panicked "Invalid t, r, and n. Expected t <= r <= n" := by
  decide

/-- Witness for C5 (amended): the general theorem applied at the same concrete
invalid input. -/
theorem claim_C5_witness :
    constructPromise toyPS kpSecret6 kpLong6 2 1 [2, 2, 2, 2, 2] [] =
      GoResult.panicked "Invalid t, r, and n. Expected t <= r <= n" :=
  claim_C5 toyPS kpSecret6 kpLong6 2 1 [2, 2, 2, 2, 2] [] (by decide)

/-- The claim C10 is about: `RevealShare` performs no bounds check and reads
`secrets[i]` directly, so it returns a value exactly when `0 ≤ i < n` and
panics (out-of-bounds slice access) otherwise, whereas `VerifyShare` and
`VerifyRevealedShare` return an index error for every out-of-range index. -/
theorem claim_C10 {q : ℕ} (s : PSuite q) (p : Promise q) (i : ℤ)
    (kp : KeyPair q) (share : ZMod q)
    (hlen : p.secrets.length = p.n.toNat) (hn : 0 ≤ p.n) :
    ((0 ≤ i ∧ i < p.n) → revealShare s p i kp =
      .ret (p.secrets.getD i.toNat 0 - s.h2s (kp.secret * p.pubKey))) ∧
    ((i < 0 ∨ p.n ≤ i) → revealShare s p i kp =
      .panicked "runtime error: index out of range") ∧
    ((i < 0 ∨ p.n ≤ i) → verifyShare s p i kp = .error .invalidIndex) ∧
    ((i < 0 ∨ p.n ≤ i) → verifyRevealedShare p i share = .error .invalidIndex) := by
  refine ⟨?_, ?_, ?_, ?_⟩
  · rintro ⟨h0, h1⟩
    have hlt : i.toNat < p.secrets.length := by omega
    unfold revealShare
    rw [if_pos h0, get?_some_getD p.secrets i.toNat 0 hlt]
  · intro h
    unfold revealShare
    rcases h with h | h
    · rw [if_neg (by omega)]
    · rw [if_pos (by omega), List.get?_eq_none.mpr (by omega)]
  · intro h
    simp only [verifyShare]
    rw [if_pos h]
  · intro h
    simp only [verifyRevealedShare]
    rw [if_pos h]

/-- Witness for C10: at the concrete Promise `promC6` (with `n = 1`),
`RevealShare` returns the decrypted share at index 0, panics at index 5, and
the two checked verifiers reject out-of-range indices. -/
theorem claim_C10_witness :
    revealShare toyPS promC6 0 kpInsurer6 = .ret 3 ∧
    revealShare toyPS promC6 5 kpInsurer6 =
      .panicked "runtime error: index out of range" ∧
    verifyShare toyPS promC6 (-1) kpInsurer6 = .error .invalidIndex ∧
    verifyRevealedShare promC6 1 0 = .error .invalidIndex := by
  refine ⟨?_, ?_, ?_, ?_⟩
  · have h := (claim_C10 toyPS promC6 0 kpInsurer6 0 (by decide) (by decide)).1
      ⟨by decide, by decide⟩
    rw [h]
    decide
  · exact (claim_C10 toyPS promC6 5 kpInsurer6 0 (by decide) (by decide)).2.1
      (Or.inr (by decide))
  · exact (claim_C10 toyPS promC6 (-1) kpInsurer6 0 (by decide) (by decide)).2.2.1
      (Or.inl (by decide))
  · exact (claim_C10 toyPS promC6 1 kpInsurer6 0 (by decide) (by decide)).2.2.2
      (Or.inr (by decide))

/-- The claim C8 is about: for an in-range index whose blame-author signature
and NIZK both verify, `VerifyBlame` returns *UnjustifiedBlame* iff the share
re-derived from `bp.diffieKey` passes the public polynomial check at `i`, and
returns nil iff that check fails. -/
theorem claim_C8 {q : ℕ} (s : PSuite q) (p : Promise q) (i : ℤ)
    (bp : BlameProofM q)
    (hrange : 0 ≤ i ∧ i < p.n)
    (hsig : verifySignature s p i bp.signature .sigBlameMsg = .ok ())
    (hnizk : s.nizkVerify bp.diffieKey p.pubKey bp.diffieKeyProof = true) :
    (verifyBlame s p i bp = .error .unjustifiedBlame ↔
      pubPolyCheck p.pubPoly i (p.secrets.getD i.toNat 0 - s.h2s bp.diffieKey)
        = true) ∧
    (verifyBlame s p i bp = .ok () ↔
      pubPolyCheck p.pubPoly i (p.secrets.getD i.toNat 0 - s.h2s bp.diffieKey)
        = false) := by
  have hr : ¬(i < 0 ∨ p.n ≤ i) := by omega
  simp only [verifyBlame]
  rw [if_neg hr, hsig]
  cases hb : pubPolyCheck p.pubPoly i (p.secrets.getD i.toNat 0 - s.h2s bp.diffieKey) with
  | true => simp [hnizk, hb]
  | false => simp [hnizk, hb]

/-- Witness for C8: at `promC6` index 0 and the concrete blame proof `bpC8`
(whose re-derived share fails the polynomial check) `VerifyBlame` accepts. -/
theorem claim_C8_witness :
    verifyBlame toyPS promC6 0 bpC8 = .ok () :=
  (claim_C8 toyPS promC6 0 bpC8 ⟨by decide, by decide⟩ (by decide)
    (by decide)).2.mpr (by decide)

theorem verifyDeal_snd {q : ℕ} (s : VSuite q) (a : Agg q) (d : VDeal q)
    (inc : Bool) :
    (verifyDeal s a d inc).2 = a ∨ (verifyDeal s a d inc).2 = bindDeal a d := by
  unfold verifyDeal
  split
  · exact Or.inl rfl
  · right
    dsimp only
    repeat' split
    all_goals rfl

theorem verifyDeal_false_snd {q : ℕ} (s : VSuite q) (a : Agg q) (d : VDeal q) :
    (verifyDeal s a d false).2 = bindDeal a d := by
  unfold verifyDeal
  rw [if_neg (by simp)]
  dsimp only
  repeat' split
  all_goals rfl

theorem addResponse_err_snd {q : ℕ} (a : Agg q) (r : VResponse)
    (h : ((addResponse a r).1).isSome = true) : (addResponse a r).2 = a := by
  unfold addResponse at h ⊢
  split_ifs at h ⊢
  · rfl
  · rfl
  · simp at h

theorem verifyResponse_err_snd {q : ℕ} (s : VSuite q) (a : Agg q)
    (r : VResponse) (h : ((verifyResponse s a r).1).isSome = true) :
    (verifyResponse s a r).2 = a := by
  unfold verifyResponse at h ⊢
  split_ifs at h ⊢
  · rfl
  · cases hf : findPub a.verifiers r.index with
    | none => rfl
    | some pub =>
      rw [hf] at h
      dsimp only at h ⊢
      split_ifs at h ⊢
      · exact addResponse_err_snd a r h
      · rfl

theorem verifyJustification_err_snd {q : ℕ} (s : VSuite q) (a : Agg q)
    (j : VJust q) (h : ((verifyJustification s a j).1).isSome = true) :
    (verifyJustification s a j).2 = a ∨
      (verifyJustification s a j).2 =
        { bindDeal a j.deal with badDealer := true } := by
  unfold verifyJustification at h ⊢
  split_ifs at h ⊢
  · exact Or.inl rfl
  · cases hl : a.responses.lookup j.index with
    | none => exact Or.inl rfl
    | some r =>
      rw [hl] at h
      dsimp only at h ⊢
      split_ifs at h ⊢
      · exact Or.inl rfl
      · have hb2 := verifyDeal_false_snd s a j.deal
        set x := verifyDeal s a j.deal false with hx
        clear_value x
        cases x with
        | mk e a2 =>
          dsimp only at hb2
          cases e with
          | some e0 =>
            dsimp only
            right
            rw [hb2]
          | none =>
            dsimp only at h
            exact absurd h (by simp)

/-- The claim C7 is about, amended: an aggregator operation that returns an
error leaves the state unchanged, except that (a) a Justification whose deal
re-verification fails sets the sticky `badDealer` flag, and (b) `VerifyDeal`
binds `(commits, sid, deal)` on its first call BEFORE validating, so a failing
first `VerifyDeal` (including one reached through a Justification) still
performs that binding.  In particular, a Response that fails validation is
never inserted into `responses`. -/
theorem claim_C7 {q : ℕ} (s : VSuite q) :
    (∀ (a : Agg q) (r : VResponse),
      ((verifyResponse s a r).1).isSome = true → (verifyResponse s a r).2 = a) ∧
    (∀ (a : Agg q) (r : VResponse),
      ((addResponse a r).1).isSome = true → (addResponse a r).2 = a) ∧
    (∀ (a : Agg q) (d : VDeal q) (inc : Bool),
      ((verifyDeal s a d inc).1).isSome = true →
        (verifyDeal s a d inc).2 = a ∨ (verifyDeal s a d inc).2 = bindDeal a d) ∧
    (∀ (a : Agg q) (j : VJust q),
      ((verifyJustification s a j).1).isSome = true →
        (verifyJustification s a j).2 = a ∨
          (verifyJustification s a j).2 =
            { bindDeal a j.deal with badDealer := true }) :=
  ⟨fun a r h => verifyResponse_err_snd s a r h,
   fun a r h => addResponse_err_snd a r h,
   fun a d inc _ => verifyDeal_snd s a d inc,
   fun a j h => verifyJustification_err_snd s a j h⟩

/-- Counterexample for C7 as stated: the very first `VerifyDeal` call on a
fresh aggregator with an invalid-threshold deal returns an error AND changes
the aggregator state (it binds `(commits, sid, deal)` before validating), and
the change is not the `badDealer` flag of a justification. -/
theorem claim_C7_counterexample :
    (verifyDeal toyVS aggC7 dealC7 true).1 = some VErr.invalidT ∧
    ((verifyDeal toyVS aggC7 dealC7 true).2 == aggC7) = false ∧
    ((verifyDeal toyVS aggC7 dealC7 true).2).badDealer = aggC7.badDealer := by
  refine ⟨by decide, by decide, by decide⟩

/-- Witness for C7 (amended): each conjunct applied at a concrete erroring
operation. -/
theorem claim_C7_witness :
    (verifyResponse toyVS aggC7 ⟨[9], 0, .approval, []⟩).2 = aggC7 ∧
    (addResponse aggC7 ⟨[0], 5, .approval, []⟩).2 = aggC7 ∧
    ((verifyDeal toyVS aggC7 dealC7 true).2 = aggC7 ∨
      (verifyDeal toyVS aggC7 dealC7 true).2 = bindDeal aggC7 dealC7) ∧
    ((verifyJustification toyVS aggC7 ⟨[0], 0, dealC7, []⟩).2 = aggC7 ∨
      (verifyJustification toyVS aggC7 ⟨[0], 0, dealC7, []⟩).2 =
        { bindDeal aggC7 dealC7 with badDealer := true }) :=
  ⟨(claim_C7 toyVS).1 aggC7 ⟨[9], 0, .approval, []⟩ (by decide),
   (claim_C7 toyVS).2.1 aggC7 ⟨[0], 5, .approval, []⟩ (by decide),
   (claim_C7 toyVS).2.2.1 aggC7 dealC7 true (by decide),
   (claim_C7 toyVS).2.2.2 aggC7 ⟨[0], 0, dealC7, []⟩ (by decide)⟩

/-- Theorem for C1 (a code bug): on the first deal, `ProcessDeal` never
compares the recomputed session id against `d.SessionID` — the aggregator is
created with `d.SessionID` itself, so `VerifyDeal`'s session comparison is
vacuously true.  Concretely: `dealC1.sessionID = [1]` differs from the session
id `verC1` recomputes, yet `ProcessDeal` returns a Response (no error at all,
let alone a session-id error); the recomputed id is merely copied into the
emitted Response. -/
theorem claim_C1 :
    (sessionIDv toyVS verC1.dealer verC1.verifiers dealC1.commitments
        (dealC1.t : ℤ) == dealC1.sessionID) = false ∧
    (processDeal toyVS verC1 dealC1).1 =
      .ok { sessionID := [0], index := 0, status := .complaint,
            signature := [9] } := by
  refine ⟨by decide, by decide⟩

theorem certLoop_ok_iff {q : ℕ} (s : PSuite q) (ps : PromiseState q)
    (idxs : List ℕ) (acc : ℕ) :
    certLoop s ps idxs acc = .ok () ↔
      ((∀ i ∈ idxs, blameValidAt s ps i = false) ∧
        ps.promise.r ≤ (acc : ℤ) +
          ((idxs.filter (sigValidAt s ps)).length : ℤ)) := by
  induction idxs generalizing acc with
  | nil =>
    simp only [certLoop, List.filter_nil, List.length_nil, List.not_mem_nil,
      false_implies, implies_true, true_and, Nat.cast_zero, add_zero]
    constructor
    · intro h
      by_contra hc
      rw [if_pos (by omega)] at h
      exact absurd h (by simp)
    · intro h
      rw [if_neg (by omega)]
  | cons i rest ih =>
    simp only [certLoop]
    cases hb : blameValidAt s ps i with
    | true =>
      simp only [hb, if_true]
      constructor
      · intro h
        exact absurd h (by simp)
      · rintro ⟨hall, -⟩
        have h0 := hall i (List.mem_cons_self i rest)
        rw [h0] at hb
        exact absurd hb (by simp)
    | false =>
      simp only [hb, Bool.false_eq_true, if_false]
      cases hs : sigValidAt s ps i with
      | true =>
        simp only [hs, if_true]
        rw [ih]
        simp only [List.filter_cons, hs, if_true, List.length_cons,
          List.mem_cons]
        constructor
        · rintro ⟨hall, hcnt⟩
          constructor
          · rintro j (rfl | hj)
            · exact hb
            · exact hall j hj
          · push_cast at hcnt ⊢
            omega
        · rintro ⟨hall, hcnt⟩
          constructor
          · exact fun j hj => hall j (Or.inr hj)
          · push_cast at hcnt ⊢
            omega
      | false =>
        simp only [hs, Bool.false_eq_true, if_false]
        rw [ih]
        simp only [List.filter_cons, hs, Bool.false_eq_true, if_false,
          List.mem_cons]
        constructor
        · rintro ⟨hall, hcnt⟩
          constructor
          · rintro j (rfl | hj)
            · exact hb
            · exact hall j hj
          · exact hcnt
        · rintro ⟨hall, hcnt⟩
          exact ⟨fun j hj => hall j (Or.inr hj), hcnt⟩

/-- The claim C2 is about: over a well-formed Promise, `PromiseCertified` fails
whenever some `blames[j]` is non-nil and passes `VerifyBlame`; otherwise it
succeeds iff at least `r` slots hold a non-nil signature passing
`VerifySignature`. -/
theorem claim_C2 {q : ℕ} (s : PSuite q) (ps : PromiseState q)
    (hwf : verifyPromiseE ps.promise = .ok ()) :
    ((∃ j, j < ps.promise.n.toNat ∧ blameValidAt s ps j = true) →
      promiseCertified s ps ≠ .ok ()) ∧
    ((∀ j, j < ps.promise.n.toNat → blameValidAt s ps j = false) →
      (promiseCertified s ps = .ok () ↔
        ps.promise.r ≤ (validSigCount s ps : ℤ))) := by
  have hpc : promiseCertified s ps =
      certLoop s ps (List.range ps.promise.n.toNat) 0 := by
    unfold promiseCertified
    rw [hwf]
  constructor
  · rintro ⟨j, hj, hbv⟩ hok
    rw [hpc, certLoop_ok_iff] at hok
    have h0 := hok.1 j (List.mem_range.mpr hj)
    rw [h0] at hbv
    exact absurd hbv (by simp)
  · intro hall
    rw [hpc, certLoop_ok_iff]
    unfold validSigCount
    constructor
    · rintro ⟨-, h2⟩
      simpa using h2
    · intro h2
      exact ⟨fun j hj => hall j (List.mem_range.mp hj), by simpa using h2⟩

/-- Witness for C2: the concrete state `psC2` (one valid signature, no blames,
`r = 1`) is certified. -/
theorem claim_C2_witness : promiseCertified toyPS psC2 = .ok () :=
  ((claim_C2 toyPS psC2 (by decide)).2 (by decide)).mpr (by decide)

theorem constructPromise_ret {q : ℕ} (s : PSuite q) (sp lp : KeyPair q)
    (t r : ℤ) (insurers rand : List (ZMod q)) (p : Promise q)
    (h : constructPromise s sp lp t r insurers rand = .ret p) :
    t ≤ r ∧ r ≤ (insurers.length : ℤ) ∧ lp.suiteId = sp.suiteId ∧
      p = { id := s.pointEnc sp.pub, suiteId := sp.suiteId, t := t, r := r,
            n := (insurers.length : ℤ), pubKey := lp.pub,
            pubPoly := priPolyPick t sp.secret rand,
            insurers := insurers,
            secrets := (List.range insurers.length).map fun i =>
              priShareAt (priPolyPick t sp.secret rand) i +
                s.h2s (lp.secret * insurers.getD i 0) } := by
  unfold constructPromise at h
  dsimp only at h
  split_ifs at h with h1 h2
  · refine ⟨h1.1, h1.2, not_ne_iff.mp h2, ?_⟩
    have h3 := GoResult.ret.inj h
    rw [← h3]
    simp

theorem getD_map_range {α : Type} (f : ℕ → α) (k i : ℕ) (d : α) (h : i < k) :
    (((List.range k).map f).getD i d) = f i := by
  rw [List.getD_eq_getElem?_getD, List.getElem?_map, List.getElem?_range h]
  rfl

theorem getD_map_get? {α β : Type} (l : List α) (f : α → β) (i : ℕ) (a : α)
    (d : β) (h : l.get? i = some a) : ((l.map f).getD i d) = f a := by
  rw [List.getD_eq_getElem?_getD, List.getElem?_map, ← List.get?_eq_getElem?, h]
  rfl

/-- The claim C6 is about.  First conjunct: on a Promise honestly built by
`ConstructPromise` from well-formed key pairs (public key = secret · B), every
insurer's `VerifyShare(i, kp_i)` succeeds.  Second conjunct: in general,
`VerifyShare(i, kp)` succeeds iff `0 ≤ i < n`, `insurers[i] = kp.Public`, and
`secrets[i] − H2S(pubKey · kp.Secret)` passes the public polynomial check at
`i`. -/
theorem claim_C6 {q : ℕ} (s : PSuite q) :
    (∀ (secretPair longPair : KeyPair q) (t r : ℤ) (kps : List (KeyPair q))
        (rand : List (ZMod q)) (p : Promise q),
      constructPromise s secretPair longPair t r (kps.map (·.pub)) rand =
          .ret p →
        longPair.pub = longPair.secret →
        (∀ kp ∈ kps, kp.pub = kp.secret) →
        ∀ (i : ℕ) (kp : KeyPair q), kps.get? i = some kp →
          verifyShare s p (i : ℤ) kp = .ok ()) ∧
    (∀ (p : Promise q) (i : ℤ) (kp : KeyPair q),
      verifyShare s p i kp = .ok () ↔
        (0 ≤ i ∧ i < p.n ∧ p.insurers.getD i.toNat 0 = kp.pub ∧
          pubPolyCheck p.pubPoly i
            (p.secrets.getD i.toNat 0 - s.h2s (kp.secret * p.pubKey)) =
              true)) := by
  constructor
  · intro sp lp t r kps rand p hcon hlp hkps i kp hget
    obtain ⟨-, -, -, rfl⟩ :=
      constructPromise_ret s sp lp t r (kps.map (·.pub)) rand p hcon
    have hi : i < kps.length := by
      by_contra hc
      rw [List.get?_eq_none.mpr (by omega)] at hget
      exact Option.noConfusion hget
    have hkp : kp ∈ kps := List.get?_mem hget
    have hpub : kp.pub = kp.secret := hkps kp hkp
    unfold verifyShare
    dsimp only
    rw [if_neg (by simp only [List.length_map]; omega)]
    rw [if_neg (by
      simp only [Int.toNat_natCast]
      rw [getD_map_get? kps _ i kp 0 hget]
      simp)]
    rw [if_neg ?hchk]
    case hchk =>
      simp only [Int.toNat_natCast]
      rw [getD_map_range _ _ i 0 (by simp only [List.length_map]; exact hi)]
      rw [getD_map_get? kps _ i kp 0 hget]
      rw [hpub, hlp, mul_comm lp.secret kp.secret, add_sub_cancel_right]
      simp [pubPolyCheck, priShareAt]
  · intro p i kp
    unfold verifyShare
    dsimp only
    by_cases h1 : i < 0 ∨ p.n ≤ i
    · rw [if_pos h1]
      constructor
      · intro h
        exact absurd h (by simp)
      · rintro ⟨h0, hlt, -⟩
        omega
    · rw [if_neg h1]
      by_cases h2 : p.insurers.getD i.toNat 0 ≠ kp.pub
      · rw [if_pos h2]
        constructor
        · intro h
          exact absurd h (by simp)
        · rintro ⟨-, -, heq, -⟩
          exact absurd heq h2
      · rw [if_neg h2]
        cases h3 : pubPolyCheck p.pubPoly i
            (p.secrets.getD i.toNat 0 - s.h2s (kp.secret * p.pubKey)) with
        | true =>
          rw [if_neg (by simp [h3])]
          constructor
          · intro _
            exact ⟨by omega, by omega, not_ne_iff.mp h2, rfl⟩
          · intro _
            rfl
        | false =>
          rw [if_pos (by simp [h3])]
          constructor
          · intro h
            exact absurd h (by simp)
          · rintro ⟨-, -, -, hchk⟩
            exact absurd hchk (by simp)

/-- Witness for C6: the honest construction over one insurer yields `promC6`,
and that insurer's `VerifyShare` accepts. -/
theorem claim_C6_witness :
    constructPromise toyPS kpSecret6 kpLong6 1 1 ([kpInsurer6].map (·.pub)) []
        = .ret promC6 ∧
    verifyShare toyPS promC6 ((0 : ℕ) : ℤ) kpInsurer6 = .ok () :=
  ⟨by decide,
   (claim_C6 toyPS).1 kpSecret6 kpLong6 1 1 [kpInsurer6] [] promC6 (by decide)
     (by decide) (by decide) 0 kpInsurer6 (by decide)⟩

theorem verifyPromiseE_ok {q : ℕ} (p : Promise q)
    (h : verifyPromiseE p = .ok ()) :
    p.t ≤ p.n ∧ p.t ≤ p.r ∧ p.r ≤ p.n ∧
      p.insurers.length = p.n.toNat ∧ p.secrets.length = p.n.toNat := by
  unfold verifyPromiseE at h
  split_ifs at h with h1 h2
  push_neg at h1 h2
  exact ⟨by omega, by omega, by omega, h2.1, h2.2⟩

theorem promiseUnmarshal_ok {q : ℕ} (s : PSuite q) (buf : List ℕ)
    (p : Promise q) (h : promiseUnmarshal s buf = .ok p) :
    verifyPromiseE p = .ok () ∧ 0 ≤ p.t ∧ 0 ≤ p.r ∧ 0 ≤ p.n := by
  unfold promiseUnmarshal at h
  dsimp only at h
  repeat' split at h
  all_goals try exact Except.noConfusion h
  rename_i u hv
  cases u
  have hp := Except.ok.inj h
  subst hp
  exact ⟨hv, Int.natCast_nonneg _, Int.natCast_nonneg _, Int.natCast_nonneg _⟩

/-- The claim C4 is about, amended: a Promise accepted by `UnmarshalBinary`
satisfies `0 ≤ t ≤ r ≤ n` with both arrays of length `n`, and a Promise built
by `ConstructPromise` without panicking satisfies `t ≤ r ≤ n` with
`n = len(insurers)`; the lower bound `1 ≤ t` of the claim is NOT enforced
anywhere (`t = 0` is accepted). -/
theorem claim_C4 {q : ℕ} (s : PSuite q) :
    (∀ (buf : List ℕ) (p : Promise q), promiseUnmarshal s buf = .ok p →
      0 ≤ p.t ∧ p.t ≤ p.r ∧ p.r ≤ p.n ∧
        p.insurers.length = p.n.toNat ∧ p.secrets.length = p.n.toNat) ∧
    (∀ (secretPair longPair : KeyPair q) (t r : ℤ)
        (insurers rand : List (ZMod q)) (p : Promise q),
      constructPromise s secretPair longPair t r insurers rand = .ret p →
        p.t ≤ p.r ∧ p.r ≤ p.n ∧ p.n = (insurers.length : ℤ)) := by
  constructor
  · intro buf p h
    obtain ⟨hv, ht, hr, hn⟩ := promiseUnmarshal_ok s buf p h
    obtain ⟨htn, htr, hrn, hl1, hl2⟩ := verifyPromiseE_ok p hv
    exact ⟨ht, htr, hrn, hl1, hl2⟩
  · intro sp lp t r insurers rand p h
    obtain ⟨htr, hrn, -, rfl⟩ :=
      constructPromise_ret s sp lp t r insurers rand p h
    exact ⟨htr, hrn, rfl⟩

/-- Counterexample for C4 as stated: `UnmarshalBinary` accepts the buffer
`bufC4` encoding `n = t = r = 0`, producing a Promise with `t = 0`, which
violates the claimed invariant `1 ≤ t`. -/
theorem claim_C4_counterexample :
    promiseUnmarshal toyPS bufC4 = .ok promC4 ∧ promC4.t < 1 :=
  ⟨by decide, by decide⟩

/-- Witness for C4 (amended): both conjuncts applied at concrete inputs. -/
theorem claim_C4_witness :
    (0 ≤ promC4.t ∧ promC4.t ≤ promC4.r ∧ promC4.r ≤ promC4.n ∧
      promC4.insurers.length = promC4.n.toNat ∧
      promC4.secrets.length = promC4.n.toNat) ∧
    (promC6.t ≤ promC6.r ∧ promC6.r ≤ promC6.n ∧
      promC6.n = (([kpInsurer6].map (·.pub)).length : ℤ)) :=
  ⟨(claim_C4 toyPS).1 bufC4 promC4 (by decide),
   (claim_C4 toyPS).2 kpSecret6 kpLong6 1 1 ([kpInsurer6].map (·.pub)) []
     promC6 (by decide)⟩

theorem drop8_u32le (a b : ℕ) (rest : List ℕ) :
    (u32le a ++ (u32le b ++ rest)).drop 8 = rest := by
  rw [← List.append_assoc]
  exact List.drop_left' (by simp [u32le])

theorem drop12_u32le (a b c : ℕ) (rest : List ℕ) :
    (u32le a ++ (u32le b ++ (u32le c ++ rest))).drop 12 = rest := by
  rw [← List.append_assoc, ← List.append_assoc]
  exact List.drop_left' (by simp [u32le])

theorem psigUnmarshal_marshal (suiteId : ℕ) (sig : PromiseSig) (bs : List ℕ)
    (hs : sig.signature = some bs) (hlen : bs.length < 4294967296) :
    psigUnmarshal suiteId (psigMarshal sig) = .ok ⟨suiteId, some bs⟩ := by
  have hbuf : psigMarshal sig = u32le bs.length ++ bs := by
    unfold psigMarshal
    rw [hs]
    rfl
  have hblen : (psigMarshal sig).length = 4 + bs.length := by
    rw [hbuf]
    simp [u32le]
    omega
  unfold psigUnmarshal
  simp only [uint32Size]
  rw [hblen, hbuf, u32de_u32le bs.length bs hlen]
  rw [if_neg (by omega), if_neg (by omega)]
  rw [drop4_u32le, List.take_length]

theorem psig_roundtrip (sig : PromiseSig) (bs : List ℕ)
    (hs : sig.signature = some bs) (hlen : bs.length < 4294967296) :
    psigRoundtrips sig = true := by
  unfold psigRoundtrips
  rw [psigUnmarshal_marshal sig.suiteId sig bs hs hlen]
  simp [psigEqual, hs]

theorem bpUnmarshal_marshal {q : ℕ} (s : PSuite q) (bp : BlameProofM q)
    (bs : List ℕ)
    (hpel : ∀ x, (s.pointEnc x).length = s.pointLen)
    (hpdec : ∀ x, s.pointDec (s.pointEnc x) = some x)
    (hs : bp.signature.signature = some bs)
    (hL : bs.length + 4 < 4294967296)
    (hP : bp.diffieKeyProof.length < 4294967296) :
    bpUnmarshal s (bpMarshal s bp) =
      .ok ⟨s.sid, bp.diffieKey, bp.diffieKeyProof, ⟨s.sid, some bs⟩⟩ := by
  have hSM : psigMarshal bp.signature = u32le bs.length ++ bs := by
    unfold psigMarshal
    rw [hs]
    rfl
  have hSMlen : (psigMarshal bp.signature).length = 4 + bs.length := by
    rw [hSM]
    simp [u32le]
    omega
  have hSL : psigMarshalSize bp.signature = 4 + bs.length := by
    unfold psigMarshalSize uint32Size
    rw [hs]
    rfl
  have hbuf : bpMarshal s bp =
      u32le bp.diffieKeyProof.length ++ (u32le (4 + bs.length) ++
        (s.pointEnc bp.diffieKey ++
          (bp.diffieKeyProof ++ psigMarshal bp.signature))) := by
    unfold bpMarshal
    rw [hSL]
    simp only [List.append_assoc]
  have e8 : (u32le bp.diffieKeyProof.length ++ (u32le (4 + bs.length) ++
      (s.pointEnc bp.diffieKey ++
        (bp.diffieKeyProof ++ psigMarshal bp.signature)))).drop 8 =
      s.pointEnc bp.diffieKey ++
        (bp.diffieKeyProof ++ psigMarshal bp.signature) :=
    drop8_u32le _ _ _
  have e8p : (u32le bp.diffieKeyProof.length ++ (u32le (4 + bs.length) ++
      (s.pointEnc bp.diffieKey ++
        (bp.diffieKeyProof ++ psigMarshal bp.signature)))).drop
          (8 + s.pointLen) =
      bp.diffieKeyProof ++ psigMarshal bp.signature := by
    rw [← List.drop_drop, e8]
    exact List.drop_left' (hpel _)
  have e8pp : (u32le bp.diffieKeyProof.length ++ (u32le (4 + bs.length) ++
      (s.pointEnc bp.diffieKey ++
        (bp.diffieKeyProof ++ psigMarshal bp.signature)))).drop
          (8 + s.pointLen + bp.diffieKeyProof.length) =
      psigMarshal bp.signature := by
    rw [← List.drop_drop, e8p]
    exact List.drop_left' rfl
  unfold bpUnmarshal
  simp only [uint32Size]
  norm_num
  rw [hbuf]
  rw [u32de_u32le _ _ hP, drop4_u32le, u32de_u32le _ _ (by omega)]
  rw [if_neg (by
    simp only [List.length_append, u32le_length, hpel, hSMlen]
    omega)]
  rw [e8, List.take_left' (hpel _), hpdec]
  dsimp only
  rw [if_neg (by
    simp only [List.length_append, u32le_length, hpel, hSMlen]
    omega)]
  rw [e8p, List.take_left' rfl]
  rw [e8pp, ← hSMlen, List.take_length]
  rw [psigUnmarshal_marshal s.sid bp.signature bs hs (by omega)]

theorem bp_roundtrip {q : ℕ} (s : PSuite q) (bp : BlameProofM q) (bs : List ℕ)
    (hpel : ∀ x, (s.pointEnc x).length = s.pointLen)
    (hpdec : ∀ x, s.pointDec (s.pointEnc x) = some x)
    (hbp : bp.suiteId = s.sid)
    (hbsid : bp.signature.suiteId = s.sid)
    (hs : bp.signature.signature = some bs)
    (hL : bs.length + 4 < 4294967296)
    (hP : bp.diffieKeyProof.length < 4294967296) :
    bpRoundtrips s bp = true := by
  unfold bpRoundtrips
  rw [bpUnmarshal_marshal s bp bs hpel hpdec hs hL hP]
  simp [bpEqual, psigEqual, hbp, hbsid, hs]

theorem promiseUnmarshal_marshal {q : ℕ} (s : PSuite q) (p : Promise q)
    (hpel : ∀ x, (s.pointEnc x).length = s.pointLen)
    (hsel : ∀ x, (s.secretEnc x).length = s.secretLen)
    (hpdec : ∀ x, s.pointDec (s.pointEnc x) = some x)
    (hsdec : ∀ x, s.secretDec (s.secretEnc x) = some x)
    (h0t : 0 ≤ p.t) (htr : p.t ≤ p.r) (hrn : p.r ≤ p.n)
    (hn32 : p.n < 4294967296)
    (hpl : p.pubPoly.length = p.t.toNat)
    (hil : p.insurers.length = p.n.toNat)
    (hsl : p.secrets.length = p.n.toNat) :
    promiseUnmarshal s (promiseMarshal s p) =
      .ok { id := [], suiteId := s.sid, t := p.t, r := p.r, n := p.n,
            pubKey := p.pubKey, pubPoly := p.pubPoly,
            insurers := p.insurers, secrets := p.secrets } := by
  have h0r : 0 ≤ p.r := le_trans h0t htr
  have h0n : 0 ≤ p.n := le_trans h0r hrn
  have hN : u32ofInt p.n = p.n.toNat := u32ofInt_of_lt _ h0n hn32
  have hT : u32ofInt p.t = p.t.toNat := u32ofInt_of_lt _ h0t (by omega)
  have hR : u32ofInt p.r = p.r.toNat := u32ofInt_of_lt _ h0r (by omega)
  have hlenPP : ((p.pubPoly.map s.pointEnc).flatten).length =
      p.t.toNat * s.pointLen := by
    rw [flatten_enc_length s.pointEnc s.pointLen hpel, hpl]
  have hlenII : ((p.insurers.map s.pointEnc).flatten).length =
      p.n.toNat * s.pointLen := by
    rw [flatten_enc_length s.pointEnc s.pointLen hpel, hil]
  have hlenSS : ((p.secrets.map s.secretEnc).flatten).length =
      p.n.toNat * s.secretLen := by
    rw [flatten_enc_length s.secretEnc s.secretLen hsel, hsl]
  have hbuf : promiseMarshal s p =
      u32le p.n.toNat ++ (u32le p.t.toNat ++ (u32le p.r.toNat ++
        (s.pointEnc p.pubKey ++ ((p.pubPoly.map s.pointEnc).flatten ++
          ((p.insurers.map s.pointEnc).flatten ++
            (p.secrets.map s.secretEnc).flatten))))) := by
    unfold promiseMarshal
    rw [hN, hT, hR]
    simp only [List.append_assoc]
  have hn2 : p.n.toNat < 4294967296 := by omega
  have ht2 : p.t.toNat < 4294967296 := by omega
  have hr2 : p.r.toNat < 4294967296 := by omega
  have e12 : (promiseMarshal s p).drop 12 =
      s.pointEnc p.pubKey ++ ((p.pubPoly.map s.pointEnc).flatten ++
        ((p.insurers.map s.pointEnc).flatten ++
          (p.secrets.map s.secretEnc).flatten)) := by
    rw [hbuf]
    exact drop12_u32le _ _ _ _
  have e12p : (promiseMarshal s p).drop (12 + s.pointLen) =
      (p.pubPoly.map s.pointEnc).flatten ++
        ((p.insurers.map s.pointEnc).flatten ++
          (p.secrets.map s.secretEnc).flatten) := by
    rw [← List.drop_drop, e12]
    exact List.drop_left' (hpel _)
  have eIns : (promiseMarshal s p).drop
      (12 + s.pointLen + p.t.toNat * s.pointLen) =
      (p.insurers.map s.pointEnc).flatten ++
        (p.secrets.map s.secretEnc).flatten := by
    rw [← List.drop_drop, e12p]
    exact List.drop_left' hlenPP
  have eSec : (promiseMarshal s p).drop
      (12 + s.pointLen + p.t.toNat * s.pointLen +
        p.n.toNat * s.pointLen) =
      (p.secrets.map s.secretEnc).flatten := by
    rw [← List.drop_drop, eIns]
    exact List.drop_left' hlenII
  have e0v : u32de (promiseMarshal s p) = p.n.toNat := by
    rw [hbuf]
    exact u32de_u32le _ _ hn2
  have e4v : u32de ((promiseMarshal s p).drop 4) = p.t.toNat := by
    rw [hbuf, drop4_u32le]
    exact u32de_u32le _ _ ht2
  have e8v : u32de ((promiseMarshal s p).drop 8) = p.r.toNat := by
    rw [hbuf, drop8_u32le]
    exact u32de_u32le _ _ hr2
  have eK : s.pointDec (((promiseMarshal s p).drop 12).take s.pointLen) =
      some p.pubKey := by
    rw [e12, List.take_left' (hpel _), hpdec]
  have ePP : decodeSeq s.pointDec s.pointLen p.t.toNat
      (((promiseMarshal s p).drop (12 + s.pointLen)).take
        (p.t.toNat * s.pointLen)) = some p.pubPoly := by
    rw [e12p, List.take_left' hlenPP, ← hpl]
    have h := decodeSeq_flatten s.pointDec s.pointEnc s.pointLen hpel hpdec
      p.pubPoly []
    rw [List.append_nil] at h
    exact h
  have eII : decodeSeq s.pointDec s.pointLen p.n.toNat
      (((promiseMarshal s p).drop
        (12 + s.pointLen + p.t.toNat * s.pointLen)).take
          (p.n.toNat * s.pointLen)) = some p.insurers := by
    rw [eIns, List.take_left' hlenII, ← hil]
    have h := decodeSeq_flatten s.pointDec s.pointEnc s.pointLen hpel hpdec
      p.insurers []
    rw [List.append_nil] at h
    exact h
  have eSS : decodeSeq s.secretDec s.secretLen p.n.toNat
      (((promiseMarshal s p).drop
        (12 + s.pointLen + p.t.toNat * s.pointLen +
          p.n.toNat * s.pointLen)).take (p.n.toNat * s.secretLen)) =
      some p.secrets := by
    rw [eSec, ← hlenSS, List.take_length, ← hsl]
    have h := decodeSeq_flatten s.secretDec s.secretEnc s.secretLen hsel hsdec
      p.secrets []
    rw [List.append_nil] at h
    exact h
  have ct : ((p.t.toNat : ℕ) : ℤ) = p.t := Int.toNat_of_nonneg h0t
  have cr : ((p.r.toNat : ℕ) : ℤ) = p.r := Int.toNat_of_nonneg h0r
  have cn : ((p.n.toNat : ℕ) : ℤ) = p.n := Int.toNat_of_nonneg h0n
  unfold promiseUnmarshal
  simp only [uint32Size]
  norm_num
  rw [e0v, e4v, e8v, eK]
  dsimp only
  rw [ePP]
  dsimp only
  rw [eII]
  dsimp only
  rw [eSS]
  dsimp only
  rw [ct, cr, cn]
  have hver : verifyPromiseE
      { id := [], suiteId := s.sid, t := p.t, r := p.r, n := p.n,
        pubKey := p.pubKey, pubPoly := p.pubPoly,
        insurers := p.insurers, secrets := p.secrets } = .ok () := by
    unfold verifyPromiseE
    rw [if_neg (by dsimp only; omega)]
    rw [if_neg (by dsimp only; simp [hil, hsl])]
  rw [hver]

theorem promise_roundtrip {q : ℕ} (s : PSuite q) (p : Promise q)
    (hpel : ∀ x, (s.pointEnc x).length = s.pointLen)
    (hsel : ∀ x, (s.secretEnc x).length = s.secretLen)
    (hpdec : ∀ x, s.pointDec (s.pointEnc x) = some x)
    (hsdec : ∀ x, s.secretDec (s.secretEnc x) = some x)
    (hsuite : p.suiteId = s.sid)
    (h0t : 0 ≤ p.t) (htr : p.t ≤ p.r) (hrn : p.r ≤ p.n)
    (hn32 : p.n < 4294967296)
    (hpl : p.pubPoly.length = p.t.toNat)
    (hil : p.insurers.length = p.n.toNat)
    (hsl : p.secrets.length = p.n.toNat) :
    promiseRoundtrips s p = true := by
  unfold promiseRoundtrips
  rw [promiseUnmarshal_marshal s p hpel hsel hpdec hsdec h0t htr hrn hn32
    hpl hil hsl]
  simp [promiseEqual, hsuite]

/-- The claim C9 is about: for each of Promise, PromiseSignature and
BlameProof, unmarshalling the output of `MarshalBinary` into a fresh value
initialized with `UnmarshalInit` on the same suite succeeds and the result is
structurally equal (per the type's `Equal` method) to the original.  The
hypotheses state well-formedness (Promise: `0 ≤ t ≤ r ≤ n` with arrays of
length `n` and `t` commitment points; signatures non-nil; sizes below `2^32`)
and the suite's encoding contract (fixed-length encodings inverted by the
decoders). -/
theorem claim_C9 {q : ℕ} (s : PSuite q)
    (hpel : ∀ x, (s.pointEnc x).length = s.pointLen)
    (hsel : ∀ x, (s.secretEnc x).length = s.secretLen)
    (hpdec : ∀ x, s.pointDec (s.pointEnc x) = some x)
    (hsdec : ∀ x, s.secretDec (s.secretEnc x) = some x) :
    (∀ p : Promise q, p.suiteId = s.sid →
      0 ≤ p.t → p.t ≤ p.r → p.r ≤ p.n → p.n < 4294967296 →
      p.pubPoly.length = p.t.toNat → p.insurers.length = p.n.toNat →
      p.secrets.length = p.n.toNat →
      promiseRoundtrips s p = true) ∧
    (∀ (sig : PromiseSig) (bs : List ℕ), sig.signature = some bs →
      bs.length < 4294967296 → psigRoundtrips sig = true) ∧
    (∀ (bp : BlameProofM q) (bs : List ℕ),
      bp.suiteId = s.sid → bp.signature.suiteId = s.sid →
      bp.signature.signature = some bs → bs.length + 4 < 4294967296 →
      bp.diffieKeyProof.length < 4294967296 →
      bpRoundtrips s bp = true) :=
  ⟨fun p hsuite h0t htr hrn hn32 hpl hil hsl =>
    promise_roundtrip s p hpel hsel hpdec hsdec hsuite h0t htr hrn hn32
      hpl hil hsl,
   fun sig bs hs hlen => psig_roundtrip sig bs hs hlen,
   fun bp bs hbp hbsid hs hL hP =>
    bp_roundtrip s bp bs hpel hpdec hbp hbsid hs hL hP⟩

/-- Witness for C9: all three round trips hold at concrete values over the
concrete suite (`promC6`, a two-byte signature, and `bpC9`). -/
theorem claim_C9_witness :
    promiseRoundtrips toyPS promC6 = true ∧
    psigRoundtrips sigC9 = true ∧
    bpRoundtrips toyPS bpC9 = true :=
  ⟨(claim_C9 toyPS (by decide) (by decide) (by decide) (by decide)).1 promC6
     (by decide) (by decide) (by decide) (by decide) (by decide) (by decide)
     (by decide) (by decide),
   (claim_C9 toyPS (by decide) (by decide) (by decide) (by decide)).2.1 sigC9
     [1, 2] (by decide) (by decide),
   (claim_C9 toyPS (by decide) (by decide) (by decide) (by decide)).2.2 bpC9
     [1] (by decide) (by decide) (by decide) (by decide) (by decide)⟩
